import Mathlib

/-!
Verification of the resolution-and-acquisition core of `everest-mod-cli`,
a package manager for Celeste (Everest) mods.  The Rust source is shallowly
embedded: pure logic becomes Lean functions, the file system is an explicit
list of existing paths, HTTP responses are records of the metadata the code
inspects, and the streaming body is a list of chunk results.  The external
xxHash-64 implementation (crate `xxhash_rust`) is abstracted as a function
parameter `hashFn`; everything downstream of it (hex formatting, comparison,
cleanup) is translated from the source.
-/

namespace EverestModCli

/-! ## ASCII / hex helpers (std formatting behaviour used by the source) -/

/-- Lower-cases one ASCII character, as Rust's `eq_ignore_ascii_case` does
byte-wise. -/
def asciiLower (c : Char) : Char :=
  if 'A' ≤ c ∧ c ≤ 'Z' then Char.ofNat (c.toNat + 32) else c

/-- Rust `str::eq_ignore_ascii_case`. -/
def eqIgnoreAsciiCase (a b : String) : Bool :=
  a.data.map asciiLower == b.data.map asciiLower

/-- Rust `format!` with spec `:016x` applied to a `u64`: fixed-width (16
digits) lowercase hexadecimal, zero-padded on the left. -/
def hexFixed16 (n : Nat) : String :=
  let ds := Nat.toDigits 16 (n % 2 ^ 64)
  ⟨List.replicate (16 - ds.length) '0' ++ ds⟩

/-! ## Data model (`mod_registry.rs`, `manifest.rs`) -/

/-- `mod_registry.rs`: one entry of `everest_update.yaml`. -/
structure RemoteModInfo where
  version : String
  file_size : Nat
  updated_at : Nat
  download_url : String
  checksums : List String
  gamebanana_type : String
  gamebanana_id : Nat
deriving DecidableEq

/-- `RemoteModInfo::has_matching_hash`: true when the computed hash matches
any of the expected checksums, ASCII-case-insensitively. -/
def RemoteModInfo.has_matching_hash (info : RemoteModInfo) (computed_hash : String) : Bool :=
  info.checksums.any (fun checksum => eqIgnoreAsciiCase checksum computed_hash)

/-- `RemoteModRegistry = HashMap<String, RemoteModInfo>`, modelled as an
association list; lookup returns the first binding of a key. -/
abbrev RemoteModRegistry : Type := List (String × RemoteModInfo)

/-- `HashMap::get` / `ModRegistryQuery::get_mod_info_by_name`. -/
def getModInfoByName (reg : RemoteModRegistry) (name : String) : Option RemoteModInfo :=
  (List.find? (fun p => p.1 == name) reg).map Prod.snd

/-- `manifest.rs` / `local.rs`: a required or optional dependency entry. -/
structure Dependency where
  name : String
  version : Option String
deriving DecidableEq

/-- `manifest.rs` / `local.rs`: the `everest.yaml` manifest of a mod. -/
structure ModManifest where
  name : String
  version : String
  dll : Option String
  dependencies : Option (List Dependency)
  optional_dependencies : Option (List Dependency)
deriving DecidableEq

/-- `local.rs`: a locally installed mod.  The lazily cached checksum
(`OnceCell` filled by `fileutil::hash_file`) is modelled by the outcome of
its computation: `Except.ok hash` or an I/O error. -/
structure LocalMod where
  location : String
  manifest : ModManifest
  checksumResult : Except String String

/-! ## `download.rs`: `ModDownloader::download_mod`

The streaming loop is embedded over the list of chunk outcomes delivered by
the body stream: `some bytes` for a chunk written to disk and hashed,
`none` for a network or disk-write failure (either aborts the loop through
the same early return).  The file system is the list of paths that exist. -/

/-- Outcome of one `download_mod` call, mirroring `Result<(), Error>` with
the variants the function can produce. -/
inductive DlOutcome where
  | ok : DlOutcome
  | streamErr : DlOutcome
  | invalidChecksum (file : String) (computed : String) (expected : List String) : DlOutcome
deriving DecidableEq

/-- Concatenate the streamed chunks; `none` as soon as a chunk fails
(the `?` early return in the `while let` loop). -/
def processChunks : List (Option (List Nat)) → Option (List Nat)
  | [] => some []
  | none :: _ => none
  | some c :: rest => (processChunks rest).map (fun d => c ++ d)

/-- `fs::File::create`: after it, the path exists (created or truncated). -/
def createFile (fs : List String) (path : String) : List String :=
  if path ∈ fs then fs else path :: fs

/-- `fs::remove_file`: after it, the path no longer exists. -/
def removeFile (fs : List String) (path : String) : List String :=
  List.filter (fun p => p != path) fs

/-- `ModDownloader::download_mod`, from the `File::create` call onwards:
stream chunks to disk while hashing, then format the xxHash-64 digest with
`:016x` and compare it against `expected_hash` with `slice::contains`
(exact string equality).  On mismatch the file is removed and
`Error::InvalidChecksum` is returned with the path, computed string and
expected list. -/
def download_mod (hashFn : List Nat → Nat) (chunks : List (Option (List Nat)))
    (expected_hash : List String) (download_path : String) (fs : List String) :
    List String × DlOutcome :=
  let fs1 := createFile fs download_path
  match processChunks chunks with
  | none => (fs1, DlOutcome.streamErr)
  | some data =>
    let hash_str := hexFixed16 (hashFn data)
    if expected_hash.contains hash_str then
      (fs1, DlOutcome.ok)
    else
      (removeFile fs1 download_path,
        DlOutcome.invalidChecksum download_path hash_str expected_hash)

/-! ## `download.rs` `mod util`: filename determination -/

/-- The response metadata `util::determine_filename` inspects: the final
URL's path segments (`None` for a cannot-be-a-base URL) and the ETag header
(`None` when absent or not valid ASCII). -/
structure HttpResponse where
  url_path_segments : Option (List String)
  etag : Option String
deriving DecidableEq

/-- `util::extract_filename_from_url`: the last path segment, filtered to be
non-empty. -/
def extract_filename_from_url (segs : Option (List String)) : Option String :=
  (segs.bind List.getLast?).bind (fun seg => if seg = "" then none else some seg)

/-- Rust `str::trim_matches('"')`: strip all leading and trailing quote
characters. -/
def trimQuotes (s : String) : String :=
  ⟨((s.data.dropWhile (fun c => c == '"')).reverse.dropWhile (fun c => c == '"')).reverse⟩

/-- `util::extract_filename_from_etag`: quote-stripped ETag plus ".zip". -/
def extract_filename_from_etag (r : HttpResponse) : Option String :=
  r.etag.map (fun etag => trimQuotes etag ++ ".zip")

/-- `util::determine_filename`.  The fresh UUID of the fallback branch is
passed in as `uuid`. -/
def determine_filename (uuid : String) (r : HttpResponse) : Except Unit String :=
  Except.ok
    (((extract_filename_from_url r.url_path_segments).or
        (extract_filename_from_etag r)).getD ("unknown-mod_" ++ uuid ++ ".zip"))

/-! ## `download/update.rs`: `check_updates`

The rayon `par_iter().filter_map().collect()` preserves input order and has
no cross-item state, so it is embedded as a sequential `filterMap`. -/

/-- `check_updates`: local mods found in the registry whose checksum matches
none of the registry entry's acceptable checksums; registry misses and
checksum-computation failures yield `none` (excluded, scan continues). -/
def check_updates (local_mods : List LocalMod) (mod_registry : RemoteModRegistry) :
    List (String × RemoteModInfo) :=
  local_mods.filterMap (fun local_mod =>
    match getModInfoByName mod_registry local_mod.manifest.name with
    | none => none
    | some remote_mod =>
      match local_mod.checksumResult with
      | Except.error _ => none
      | Except.ok local_hash =>
        if remote_mod.has_matching_hash local_hash then none
        else some (local_mod.manifest.name, remote_mod))

/-! ## `download/install.rs`: `install` / `check_dependencies` /
`resolve_dependencies`

`check_dependencies` reads the installed archive's manifest, filters out the
primal dependencies "Everest" and "EverestCore", and collects the remaining
names into a `HashSet` (modelled: dedup list).  `install` subtracts the
installed-name set and hands the missing names to `resolve_dependencies`,
which looks each one up in the registry: found entries are downloaded
(download success is an external effect, supplied as `dlOk`), absent names
are logged as a warning and skipped. -/

/-- The dependency-name set built by `check_dependencies` from a manifest's
dependency list: core names filtered out, collected into a set. -/
def filteredDependencyNames (deps : List Dependency) : List String :=
  ((deps.filter (fun d => !(d.name == "Everest" || d.name == "EverestCore"))).map
    (fun d => d.name)).dedup

/-- `install`: `dependencies.difference(&installed_mod_names)`. -/
def missingDependencies (deps : List Dependency) (installed : List String) : List String :=
  (filteredDependencyNames deps).filter (fun n => !(installed.contains n))

/-- `resolve_dependencies`: returns the downloaded `(name, info)` pairs and
the names warned about, or an error when a download fails (`.await?`). -/
def resolve_dependencies (dlOk : String → Bool) (mod_registry : RemoteModRegistry) :
    List String → Except Unit (List (String × RemoteModInfo) × List String)
  | [] => Except.ok ([], [])
  | dependency :: rest =>
    match getModInfoByName mod_registry dependency with
    | some info =>
      if dlOk dependency then
        match resolve_dependencies dlOk mod_registry rest with
        | Except.ok (downloaded, warned) =>
          Except.ok ((dependency, info) :: downloaded, warned)
        | Except.error e => Except.error e
      else Except.error ()
    | none =>
      match resolve_dependencies dlOk mod_registry rest with
      | Except.ok (downloaded, warned) => Except.ok (downloaded, dependency :: warned)
      | Except.error e => Except.error e

/-! ## The dependency-graph resolver

Modelled from the spec: the final resolver (`dependency` module,
`DependencyGraph::check_dependencies`, called from `main.rs`) is not among
the provided source files — only its caller is — so the breadth-first
closure of spec section 4.1 is embedded here.  A dependency graph maps an
artifact name to its required dependency names; a name with no record has
no outgoing edges.  The traversal keeps a visited set, expands each name at
most once, and accumulates the full transitive closure including the
target; afterwards the two platform-core names are excluded, the installed
set is subtracted, and registry lookup misses are dropped. -/

/-- Modelled from the spec: the dependency-graph snapshot, an association
list from artifact name to required dependency names. -/
abbrev DependencyGraph : Type := List (String × List String)

/-- Modelled from the spec: dependency record lookup; absence means no
further edges. -/
def depsOf (g : DependencyGraph) (name : String) : List String :=
  ((List.find? (fun p => p.1 == name) g).map Prod.snd).getD []

/-- Every name that can ever be enqueued by the traversal starting from
`target`: the target itself plus every name occurring in a dependency
list.  Used as the termination universe of the breadth-first walk. -/
def graphNames (g : DependencyGraph) (target : String) : List String :=
  target :: g.flatMap Prod.snd

/-- Counting the elements kept by a filter is monotone in the predicate. -/
lemma length_filter_mono {α : Type} (l : List α) (p q : α → Bool)
    (h : ∀ a ∈ l, p a = true → q a = true) :
    (l.filter p).length ≤ (l.filter q).length := by
  induction l with
  | nil => simp
  | cons a t ih =>
    have ht : ∀ b ∈ t, p b = true → q b = true :=
      fun b hb => h b (List.mem_cons_of_mem a hb)
    by_cases hp : p a = true
    · rw [List.filter_cons_of_pos hp, List.filter_cons_of_pos (h a (List.mem_cons_self a t) hp)]
      simpa using ih ht
    · rw [List.filter_cons_of_neg (by simpa using hp)]
      by_cases hq : q a = true
      · rw [List.filter_cons_of_pos hq]
        exact Nat.le_succ_of_le (ih ht)
      · rw [List.filter_cons_of_neg (by simpa using hq)]
        exact ih ht

/-- Marking a fresh member of the universe as visited strictly shrinks the
unvisited part of the universe (the termination measure of the walk). -/
lemma length_filter_cons_lt (univ visited : List String) (q : String)
    (hq : q ∈ univ) (hv : q ∉ visited) :
    (univ.filter (fun x => decide (x ∉ q :: visited))).length <
      (univ.filter (fun x => decide (x ∉ visited))).length := by
  induction univ with
  | nil => cases hq
  | cons a l ih =>
    have hmono : ∀ b ∈ l, (fun x => decide (x ∉ q :: visited)) b = true →
        (fun x => decide (x ∉ visited)) b = true := by
      intro b _ hb
      simp only [decide_eq_true_eq, List.mem_cons, not_or] at hb ⊢
      exact hb.2
    by_cases haq : a = q
    · subst haq
      rw [List.filter_cons_of_neg (by simp), List.filter_cons_of_pos (by simp [hv])]
      exact Nat.lt_succ_of_le (length_filter_mono l _ _ hmono)
    · rcases List.mem_cons.mp hq with h | h
      · exact absurd h.symm haq
      · by_cases hav : a ∈ visited
        · rw [List.filter_cons_of_neg (by simp [hav]), List.filter_cons_of_neg (by simp [hav])]
          exact ih h
        · rw [List.filter_cons_of_pos (by simp [hav, haq]),
            List.filter_cons_of_pos (by simp [hav])]
          exact Nat.succ_lt_succ (ih h)

/-- Modelled from the spec: the breadth-first worklist loop.  Dequeue a
name; if already visited skip it, otherwise mark it visited and enqueue its
required dependencies.  The `q ∉ univ` guard only serves the termination
measure: every enqueued name belongs to `graphNames`, so the guard never
fires on a real run (`bfsClosure_queue_subset_univ` below). -/
def bfsClosure (g : DependencyGraph) (univ : List String) :
    List String → List String → List String
  | [], visited => visited
  | q :: queue, visited =>
    if q ∈ visited ∨ q ∉ univ then
      bfsClosure g univ queue visited
    else
      bfsClosure g univ (queue ++ depsOf g q) (q :: visited)
termination_by queue visited =>
  ((univ.filter (fun x => decide (x ∉ visited))).length, queue.length)
decreasing_by
  · apply Prod.Lex.right
    simp
  · apply Prod.Lex.left
    rename_i hcond
    push_neg at hcond
    exact length_filter_cons_lt univ visited q hcond.2 hcond.1

/-- Modelled from the spec: `resolve`'s closure phase — the full transitive
closure of required-dependency edges from `target`, including `target`. -/
def resolveClosure (g : DependencyGraph) (target : String) : List String :=
  bfsClosure g (graphNames g target) [target] []

/-- Modelled from the spec: `DependencyGraph::check_dependencies` — the
closure, minus the two platform-core names, minus the installed set, with
registry lookup misses dropped. -/
def check_dependencies (g : DependencyGraph) (mod_registry : RemoteModRegistry)
    (installed : List String) (target : String) : List (String × RemoteModInfo) :=
  (((resolveClosure g target).filter
      (fun n => !(n == "Everest" || n == "EverestCore"))).filter
    (fun n => !(installed.contains n))).filterMap
    (fun n => (getModInfoByName mod_registry n).map (fun info => (n, info)))

/-- Reachability along required-dependency edges: `Reaches g a b` holds when
`b` is `a` itself or can be reached from `a` by following dependency
records. -/
inductive Reaches (g : DependencyGraph) : String → String → Prop
  | refl (a : String) : Reaches g a a
  | tail {a b c : String} : Reaches g a b → c ∈ depsOf g b → Reaches g a c

/-! ## Mirror failover

Modelled from the spec: the mirror-aware download loop (spec section 4.4,
configured through the `--mirror-priority` option declared in `cli.rs`) is
not among the provided source files.  The engine tries the mirrors in
priority order; a request-level failure moves on to the next mirror, and
the list is exhausted before a terminal failure is reported. -/

/-- Modelled from the spec: try each mirror in priority order; return
whether any attempt succeeded together with the list of mirrors actually
attempted, in order. -/
def downloadWithMirrors (attempt : String → Bool) : List String → Bool × List String
  | [] => (false, [])
  | m :: rest =>
    if attempt m then (true, [m])
    else
      let r := downloadWithMirrors attempt rest
      (r.1, m :: r.2)

/-- A concrete registry entry for witnesses, with the shape of the dummy
entry used by the repository's own tests. -/
def demoInfo : RemoteModInfo where
  version := "1.0"
  file_size := 1024
  updated_at := 1610000000
  download_url := "https://example.com/mod1"
  checksums := ["deadbeef"]
  gamebanana_type := "test"
  gamebanana_id := 42

/-! # Theorems -/

/-! ## Generic facts about the embedded file system and stream -/

lemma mem_createFile (fs : List String) (path : String) : path ∈ createFile fs path := by
  unfold createFile
  split
  · assumption
  · exact List.mem_cons_self _ _

lemma mem_createFile_of_mem (fs : List String) (path p : String) (h : p ∈ fs) :
    p ∈ createFile fs path := by
  unfold createFile
  split
  · exact h
  · exact List.mem_cons_of_mem _ h

lemma not_mem_removeFile (fs : List String) (path : String) : path ∉ removeFile fs path := by
  intro h
  have hkeep := (List.mem_filter.mp h).2
  simp at hkeep

lemma processChunks_eq_none (chunks : List (Option (List Nat)))
    (h : (none : Option (List Nat)) ∈ chunks) : processChunks chunks = none := by
  induction chunks with
  | nil => cases h
  | cons c rest ih =>
    cases c with
    | none => rfl
    | some d =>
      rcases List.mem_cons.mp h with h1 | h1
      · exact Option.noConfusion h1
      · simp [processChunks, ih h1]

lemma contains_iff_mem (l : List String) (s : String) : l.contains s = true ↔ s ∈ l := by
  simp [List.contains]

lemma download_mod_of_stream_err (hashFn : List Nat → Nat)
    (chunks : List (Option (List Nat))) (expected : List String) (path : String)
    (fs : List String) (h : processChunks chunks = none) :
    download_mod hashFn chunks expected path fs = (createFile fs path, DlOutcome.streamErr) := by
  simp [download_mod, h]

lemma download_mod_of_match (hashFn : List Nat → Nat)
    (chunks : List (Option (List Nat))) (expected : List String) (path : String)
    (fs : List String) (data : List Nat) (h : processChunks chunks = some data)
    (hm : hexFixed16 (hashFn data) ∈ expected) :
    download_mod hashFn chunks expected path fs = (createFile fs path, DlOutcome.ok) := by
  simp only [download_mod, h]
  rw [if_pos ((contains_iff_mem expected _).mpr hm)]

lemma download_mod_of_mismatch (hashFn : List Nat → Nat)
    (chunks : List (Option (List Nat))) (expected : List String) (path : String)
    (fs : List String) (data : List Nat) (h : processChunks chunks = some data)
    (hm : hexFixed16 (hashFn data) ∉ expected) :
    download_mod hashFn chunks expected path fs =
      (removeFile (createFile fs path) path,
        DlOutcome.invalidChecksum path (hexFixed16 (hashFn data)) expected) := by
  simp only [download_mod, h]
  rw [if_neg (fun hc => hm ((contains_iff_mem expected _).mp hc))]

/-- C2: when the finalized checksum string matches no entry of the expected
set, the just-written destination file is deleted before the call returns
and the call reports `InvalidChecksum` carrying the destination path, the
computed hash, and the full expected set; when the checksum matches, the
file remains in place and the call succeeds. -/
theorem download_checksum_all_or_nothing (hashFn : List Nat → Nat)
    (chunks : List (Option (List Nat))) (expected : List String) (path : String)
    (fs : List String) (data : List Nat) (h : processChunks chunks = some data) :
    (hexFixed16 (hashFn data) ∉ expected →
        path ∉ (download_mod hashFn chunks expected path fs).1 ∧
        (download_mod hashFn chunks expected path fs).2 =
          DlOutcome.invalidChecksum path (hexFixed16 (hashFn data)) expected) ∧
    (hexFixed16 (hashFn data) ∈ expected →
        path ∈ (download_mod hashFn chunks expected path fs).1 ∧
        (download_mod hashFn chunks expected path fs).2 = DlOutcome.ok) := by
  constructor
  · intro hm
    rw [download_mod_of_mismatch hashFn chunks expected path fs data h hm]
    exact ⟨not_mem_removeFile _ _, rfl⟩
  · intro hm
    rw [download_mod_of_match hashFn chunks expected path fs data h hm]
    exact ⟨mem_createFile _ _, rfl⟩

/-- Witness for C2: a concrete mismatching download deletes the file and
reports the mismatch; hypotheses discharged at `chunks = [some [7]]`. -/
theorem download_checksum_all_or_nothing_witness :
    "dest" ∉ (download_mod (fun _ => 0) [some [7]] ["deadbeef"] "dest" []).1 ∧
    (download_mod (fun _ => 0) [some [7]] ["deadbeef"] "dest" []).2 =
      DlOutcome.invalidChecksum "dest" (hexFixed16 0) ["deadbeef"] :=
  (download_checksum_all_or_nothing (fun _ => 0) [some [7]] ["deadbeef"] "dest" [] [7]
    rfl).1 (by decide)

/-- C3 counterexample: a stream failure partway through the body (the `?`
early returns inside the `while let` loop) returns an error with the
partially written file still present at the destination path, so the claim
that no file remains after any error return is false. -/
theorem stream_error_leaves_partial_file :
    (download_mod (fun _ => 0) [none] [] "dest" []).2 = DlOutcome.streamErr ∧
    "dest" ∈ (download_mod (fun _ => 0) [none] [] "dest" []).1 := by
  constructor
  · rfl
  · show "dest" ∈ ["dest"]
    exact List.mem_cons_self _ _

/-- C3 (amended): only a checksum mismatch deletes the destination file
before the error returns; on a network or disk-write failure partway
through streaming the body, the call returns an error with the partially
written file still present at the destination path. -/
theorem download_error_file_state (hashFn : List Nat → Nat)
    (chunks : List (Option (List Nat))) (expected : List String) (path : String)
    (fs : List String) :
    ((none : Option (List Nat)) ∈ chunks →
        (download_mod hashFn chunks expected path fs).2 = DlOutcome.streamErr ∧
        path ∈ (download_mod hashFn chunks expected path fs).1) ∧
    (∀ data, processChunks chunks = some data →
        hexFixed16 (hashFn data) ∉ expected →
        path ∉ (download_mod hashFn chunks expected path fs).1) := by
  constructor
  · intro hnone
    rw [download_mod_of_stream_err hashFn chunks expected path fs
      (processChunks_eq_none chunks hnone)]
    exact ⟨rfl, mem_createFile _ _⟩
  · intro data h hm
    rw [download_mod_of_mismatch hashFn chunks expected path fs data h hm]
    exact not_mem_removeFile _ _

/-- Witness for C3 (amended): concrete stream failure after one chunk. -/
theorem download_error_file_state_witness :
    (download_mod (fun _ => 0) [some [1], none] ["deadbeef"] "dest" []).2 =
      DlOutcome.streamErr ∧
    "dest" ∈ (download_mod (fun _ => 0) [some [1], none] ["deadbeef"] "dest" []).1 :=
  (download_error_file_state (fun _ => 0) [some [1], none] ["deadbeef"] "dest" []).1
    (by decide)

/-- C4 counterexample: the expected checksum written in uppercase hexadecimal
matches the computed lowercase string case-insensitively, yet `download_mod`
rejects the file, because the verification uses `slice::contains` (exact
string equality), not `eq_ignore_ascii_case`. -/
theorem checksum_comparison_case_sensitive :
    (∃ e ∈ ["00000000000000AB"], eqIgnoreAsciiCase e (hexFixed16 171) = true) ∧
    (download_mod (fun _ => 171) [] ["00000000000000AB"] "dest" []).2 =
      DlOutcome.invalidChecksum "dest" "00000000000000ab" ["00000000000000AB"] := by
  constructor
  · exact ⟨"00000000000000AB", List.mem_cons_self _ _, by decide⟩
  · decide

/-- C4 (amended): verification in `download_mod` accepts the file if and
only if some entry of the expected set equals the computed fixed-width
lowercase hexadecimal hash string exactly (byte equality, case-sensitive). -/
theorem checksum_verification_exact_match (hashFn : List Nat → Nat)
    (chunks : List (Option (List Nat))) (expected : List String) (path : String)
    (fs : List String) (data : List Nat) (h : processChunks chunks = some data) :
    (download_mod hashFn chunks expected path fs).2 = DlOutcome.ok ↔
      hexFixed16 (hashFn data) ∈ expected := by
  constructor
  · intro hok
    by_contra hm
    rw [download_mod_of_mismatch hashFn chunks expected path fs data h hm] at hok
    exact DlOutcome.noConfusion hok
  · intro hm
    rw [download_mod_of_match hashFn chunks expected path fs data h hm]

/-- Witness for C4 (amended): a download whose computed hash string is
listed verbatim is accepted. -/
theorem checksum_verification_exact_match_witness :
    (download_mod (fun _ => 171) [] ["00000000000000ab"] "dest" []).2 =
      DlOutcome.ok :=
  (checksum_verification_exact_match (fun _ => 171) [] ["00000000000000ab"] "dest" [] []
    rfl).mpr (by decide)

/-! ## Filename determination (C9, C10) -/

lemma append_zip_ne_empty (t : String) : t ++ ".zip" ≠ "" := by
  intro h
  have hlen := congrArg String.length h
  rw [String.length_append] at hlen
  have h4 : (".zip" : String).length = 4 := rfl
  have h0 : ("" : String).length = 0 := rfl
  omega

lemma extract_filename_from_url_ne_empty (segs : Option (List String)) (s : String)
    (h : extract_filename_from_url segs = some s) : s ≠ "" := by
  unfold extract_filename_from_url at h
  rcases hbind : segs.bind List.getLast? with _ | seg
  · rw [hbind] at h
    exact Option.noConfusion h
  · rw [hbind] at h
    simp only [Option.some_bind] at h
    by_cases hseg : seg = ""
    · rw [if_pos hseg] at h
      exact Option.noConfusion h
    · rw [if_neg hseg] at h
      exact (Option.some.inj h) ▸ hseg

/-- C10: `determine_filename` is total at its public interface: for every
response it returns `Ok` with a non-empty filename; the error case of its
`Result` type is never produced. -/
theorem determine_filename_total (uuid : String) (r : HttpResponse) :
    ∃ s, determine_filename uuid r = Except.ok s ∧ s ≠ "" := by
  unfold determine_filename
  rcases hurl : extract_filename_from_url r.url_path_segments with _ | s
  · rcases hetag : extract_filename_from_etag r with _ | t
    · exact ⟨_, rfl, append_zip_ne_empty ("unknown-mod_" ++ uuid)⟩
    · refine ⟨_, rfl, ?_⟩
      show t ≠ ""
      unfold extract_filename_from_etag at hetag
      rcases he : r.etag with _ | e
      · rw [he] at hetag
        exact Option.noConfusion hetag
      · rw [he] at hetag
        have ht := Option.some.inj hetag
        rw [← ht]
        exact append_zip_ne_empty _
  · exact ⟨_, rfl, extract_filename_from_url_ne_empty r.url_path_segments s hurl⟩

/-- C9 counterexample: two distinct downloads (different responses and
different fresh UUIDs) whose final URL path segments coincide receive the
same destination filename, so destination filenames are not collision-free. -/
theorem url_derived_filenames_collide :
    HttpResponse.mk (some ["a", "mod.zip"]) none ≠
        HttpResponse.mk (some ["b", "mod.zip"]) none ∧
    determine_filename "uuid-1" (HttpResponse.mk (some ["a", "mod.zip"]) none) =
      determine_filename "uuid-2" (HttpResponse.mk (some ["b", "mod.zip"]) none) := by
  constructor
  · decide
  · rfl

/-- C9 (amended): the destination filename prefers the final URL path
segment when present and non-empty, falls back to the quote-stripped ETag
with ".zip" appended, and otherwise synthesizes a fresh random name; only
the synthesized branch is collision-free (distinct UUIDs give distinct
names) — URL- or ETag-derived names of two downloads may coincide. -/
theorem determine_filename_priority (uuid : String) (r : HttpResponse) :
    (∀ s, extract_filename_from_url r.url_path_segments = some s →
        determine_filename uuid r = Except.ok s) ∧
    (extract_filename_from_url r.url_path_segments = none →
      ∀ e, r.etag = some e →
        determine_filename uuid r = Except.ok (trimQuotes e ++ ".zip")) ∧
    (extract_filename_from_url r.url_path_segments = none → r.etag = none →
        determine_filename uuid r = Except.ok ("unknown-mod_" ++ uuid ++ ".zip")) ∧
    (∀ uuid2, uuid ≠ uuid2 →
        ("unknown-mod_" ++ uuid ++ ".zip" : String) ≠ "unknown-mod_" ++ uuid2 ++ ".zip") := by
  refine ⟨?_, ?_, ?_, ?_⟩
  · intro s hs
    unfold determine_filename
    rw [hs]
    rfl
  · intro hurl e he
    unfold determine_filename
    rw [hurl]
    unfold extract_filename_from_etag
    rw [he]
    rfl
  · intro hurl he
    unfold determine_filename
    rw [hurl]
    unfold extract_filename_from_etag
    rw [he]
    rfl
  · intro uuid2 hne h
    apply hne
    have hd := congrArg String.data h
    simp only [String.data_append] at hd
    have h1 := List.append_cancel_right hd
    have h2 := List.append_cancel_left h1
    exact congrArg String.mk h2

/-- Witness for C9 (amended): the URL branch at a concrete response. -/
theorem determine_filename_priority_witness :
    determine_filename "u" (HttpResponse.mk (some ["m.zip"]) none) =
      Except.ok "m.zip" :=
  (determine_filename_priority "u" (HttpResponse.mk (some ["m.zip"]) none)).1
    "m.zip" (by decide)

/-! ## Mirror exhaustion (C6) -/

/-- C6: against an ordered priority list of mirrors that all fail at the
request level, the engine attempts each mirror exactly once, in priority
order, before reporting terminal failure for the item. -/
theorem mirror_exhaustion (attempt : String → Bool) (mirrors : List String)
    (h : ∀ m ∈ mirrors, attempt m = false) :
    downloadWithMirrors attempt mirrors = (false, mirrors) := by
  induction mirrors with
  | nil => rfl
  | cons m rest ih =>
    unfold downloadWithMirrors
    rw [if_neg (by rw [h m (List.mem_cons_self m rest)]; exact Bool.false_ne_true),
      ih (fun x hx => h x (List.mem_cons_of_mem m hx))]

/-- Witness for C6: the default four-mirror priority list, all failing. -/
theorem mirror_exhaustion_witness :
    downloadWithMirrors (fun _ => false) ["otobot", "gb", "jade", "wegfan"] =
      (false, ["otobot", "gb", "jade", "wegfan"]) :=
  mirror_exhaustion (fun _ => false) ["otobot", "gb", "jade", "wegfan"]
    (fun _ _ => rfl)

/-! ## Update checker (C7) -/

/-- C7: `check_updates` returns exactly those `(name, remote-info)` pairs of
local mods whose name exists in the registry and whose locally computed
checksum matches none of that entry's acceptable checksums; local mods
absent from the registry are excluded, and a local mod whose checksum
computation fails is excluded without aborting the scan. -/
theorem check_updates_characterization (local_mods : List LocalMod)
    (reg : RemoteModRegistry) (p : String × RemoteModInfo) :
    p ∈ check_updates local_mods reg ↔
      ∃ lm ∈ local_mods, lm.manifest.name = p.1 ∧
        getModInfoByName reg lm.manifest.name = some p.2 ∧
        ∃ h, lm.checksumResult = Except.ok h ∧ p.2.has_matching_hash h = false := by
  unfold check_updates
  rw [List.mem_filterMap]
  constructor
  · rintro ⟨lm, hlm, hf⟩
    refine ⟨lm, hlm, ?_⟩
    rcases hreg : getModInfoByName reg lm.manifest.name with _ | remote
    · simp only [hreg] at hf
      exact Option.noConfusion hf
    · simp only [hreg] at hf
      rcases hcs : lm.checksumResult with e | hsh
      · simp only [hcs] at hf
        exact Option.noConfusion hf
      · simp only [hcs] at hf
        by_cases hmatch : remote.has_matching_hash hsh = true
        · rw [if_pos hmatch] at hf
          exact Option.noConfusion hf
        · rw [if_neg hmatch] at hf
          have hp := Option.some.inj hf
          subst hp
          exact ⟨rfl, rfl, hsh, rfl, Bool.not_eq_true _ ▸ hmatch⟩
  · rintro ⟨lm, hlm, hname, hreg, hsh, hcs, hmatch⟩
    refine ⟨lm, hlm, ?_⟩
    simp only [hreg, hcs]
    rw [if_neg (by rw [hmatch]; exact Bool.false_ne_true)]
    rw [hname, Prod.mk.eta]

/-! ## Dependency acquisition of the installed source (C5, C8) -/

lemma resolve_dependencies_names_subset (dlOk : String → Bool)
    (reg : RemoteModRegistry) :
    ∀ missing downloaded warned,
      resolve_dependencies dlOk reg missing = Except.ok (downloaded, warned) →
      ∀ n ∈ downloaded.map Prod.fst, n ∈ missing := by
  intro missing
  induction missing with
  | nil =>
    intro downloaded warned h n hn
    unfold resolve_dependencies at h
    have hd : downloaded = [] := by
      have := (Except.ok.inj h).symm
      exact congrArg Prod.fst this
    rw [hd] at hn
    cases hn
  | cons d rest ih =>
    intro downloaded warned h n hn
    unfold resolve_dependencies at h
    rcases hreg : getModInfoByName reg d with _ | info
    · rw [hreg] at h
      rcases hrest : resolve_dependencies dlOk reg rest with e | pair
      · rw [hrest] at h
        exact Except.noConfusion h
      · rw [hrest] at h
        obtain ⟨dl', w'⟩ := pair
        have hpair := Except.ok.inj h
        have hd : downloaded = dl' := (congrArg Prod.fst hpair).symm
        rw [hd] at hn
        exact List.mem_cons_of_mem d (ih dl' w' hrest n hn)
    · rw [hreg] at h
      cases hb : dlOk d with
      | false =>
        rw [hb] at h
        simp only [Bool.false_eq_true, if_false] at h
        exact Except.noConfusion h
      | true =>
        rw [hb] at h
        simp only [if_true] at h
        rcases hrest : resolve_dependencies dlOk reg rest with e | pair
        · rw [hrest] at h
          exact Except.noConfusion h
        · rw [hrest] at h
          obtain ⟨dl', w'⟩ := pair
          have hpair := Except.ok.inj h
          have hd : downloaded = (d, info) :: dl' := (congrArg Prod.fst hpair).symm
          rw [hd] at hn
          rcases List.mem_cons.mp hn with h1 | h1
          · exact h1 ▸ List.mem_cons_self d rest
          · exact List.mem_cons_of_mem d (ih dl' w' hrest n h1)

/-- C5: the fetch set produced by dependency resolution never contains a
name already present in the installed set, and never contains the two
platform-core names "Everest" and "EverestCore". -/
theorem fetch_set_exclusions (dlOk : String → Bool) (reg : RemoteModRegistry)
    (deps : List Dependency) (installed : List String)
    (downloaded : List (String × RemoteModInfo)) (warned : List String)
    (h : resolve_dependencies dlOk reg (missingDependencies deps installed) =
      Except.ok (downloaded, warned)) :
    ∀ n ∈ downloaded.map Prod.fst,
      n ∉ installed ∧ n ≠ "Everest" ∧ n ≠ "EverestCore" := by
  intro n hn
  have hmem := resolve_dependencies_names_subset dlOk reg _ downloaded warned h n hn
  unfold missingDependencies at hmem
  obtain ⟨h1, h2⟩ := List.mem_filter.mp hmem
  have hinst : n ∉ installed := by simpa [List.contains] using h2
  unfold filteredDependencyNames at h1
  rw [List.mem_dedup] at h1
  obtain ⟨dep, hdep, hname⟩ := List.mem_map.mp h1
  have h3 := (List.mem_filter.mp hdep).2
  rw [hname] at h3
  simp only [Bool.not_eq_true', Bool.or_eq_false_iff, beq_eq_false_iff_ne, ne_eq] at h3
  exact ⟨hinst, h3.1, h3.2⟩

/-- Witness for C5: resolving the missing dependencies of a manifest listing
"Everest" and two mods, with one already installed. -/
theorem fetch_set_exclusions_witness :
    "A" ∉ ["B"] ∧ "A" ≠ "Everest" ∧ "A" ≠ "EverestCore" :=
  fetch_set_exclusions (fun _ => true) [("A", demoInfo)]
    [Dependency.mk "Everest" none, Dependency.mk "A" none, Dependency.mk "B" none]
    ["B"] [("A", demoInfo)] [] rfl "A" (by decide)

/-- C8: every missing dependency name absent from the registry is warned
about and dropped from the downloads, and — as long as the downloads of the
names that are found succeed — the operation still returns success for the
remaining artifacts. -/
theorem lookup_miss_warned_and_dropped (dlOk : String → Bool)
    (reg : RemoteModRegistry) (missing : List String)
    (h : ∀ d ∈ missing, (getModInfoByName reg d).isSome = true → dlOk d = true) :
    ∃ downloaded warned,
      resolve_dependencies dlOk reg missing = Except.ok (downloaded, warned) ∧
      warned = missing.filter (fun d => (getModInfoByName reg d).isNone) ∧
      ∀ d, getModInfoByName reg d = none → d ∉ downloaded.map Prod.fst := by
  induction missing with
  | nil => exact ⟨[], [], rfl, rfl, fun d _ => List.not_mem_nil d⟩
  | cons d rest ih =>
    obtain ⟨dl, w, hres, hw, hdl⟩ := ih (fun x hx => h x (List.mem_cons_of_mem d hx))
    rcases hreg : getModInfoByName reg d with _ | info
    · refine ⟨dl, d :: w, ?_, ?_, hdl⟩
      · unfold resolve_dependencies
        rw [hreg, hres]
      · rw [hw, List.filter_cons_of_pos (by rw [hreg]; rfl)]
    · have hdlok : dlOk d = true :=
        h d (List.mem_cons_self d rest) (by rw [hreg]; rfl)
      refine ⟨(d, info) :: dl, w, ?_, ?_, ?_⟩
      · unfold resolve_dependencies
        rw [hreg, hdlok, hres]
        simp only [if_true]
      · rw [hw, List.filter_cons_of_neg (by rw [hreg]; simp)]
      · intro x hx hmem
        rcases List.mem_cons.mp hmem with h1 | h1
        · rw [h1] at hx
          rw [hx] at hreg
          exact Option.noConfusion hreg
        · exact hdl x hx h1

/-- Witness for C8: a two-element missing list with one registry hit and one
miss; downloads all succeed. -/
theorem lookup_miss_warned_and_dropped_witness :
    ∃ downloaded warned,
      resolve_dependencies (fun _ => true) [("A", demoInfo)] ["A", "B"] =
        Except.ok (downloaded, warned) ∧
      warned = List.filter
        (fun d => (getModInfoByName [("A", demoInfo)] d).isNone) ["A", "B"] ∧
      ∀ d, getModInfoByName [("A", demoInfo)] d = none →
        d ∉ downloaded.map Prod.fst :=
  lookup_miss_warned_and_dropped (fun _ => true) [("A", demoInfo)] ["A", "B"]
    (fun _ _ _ => rfl)

/-! ## The breadth-first closure (C1) -/

lemma Reaches.head (g : DependencyGraph) (a b c : String)
    (hab : b ∈ depsOf g a) (hbc : Reaches g b c) : Reaches g a c := by
  induction hbc with
  | refl => exact Reaches.tail (Reaches.refl a) hab
  | tail hxy hyz ih => exact Reaches.tail ih hyz

lemma bfsClosure_subset (g : DependencyGraph) (univ : List String)
    (queue visited : List String) : visited ⊆ bfsClosure g univ queue visited := by
  induction queue, visited using bfsClosure.induct g univ with
  | case1 visited => rw [bfsClosure]; exact fun x hx => hx
  | case2 q queue visited h ih => rw [bfsClosure, if_pos h]; exact ih
  | case3 q queue visited h ih =>
    rw [bfsClosure, if_neg h]
    exact fun x hx => ih (List.mem_cons_of_mem q hx)

lemma bfsClosure_nodup (g : DependencyGraph) (univ : List String) :
    ∀ queue visited, visited.Nodup → (bfsClosure g univ queue visited).Nodup := by
  intro queue visited
  induction queue, visited using bfsClosure.induct g univ with
  | case1 visited =>
    intro hnd
    rw [bfsClosure]
    exact hnd
  | case2 q queue visited h ih =>
    intro hnd
    rw [bfsClosure, if_pos h]
    exact ih hnd
  | case3 q queue visited h ih =>
    intro hnd
    rw [bfsClosure, if_neg h]
    push_neg at h
    exact ih (List.nodup_cons.mpr ⟨h.1, hnd⟩)

lemma bfsClosure_sound (g : DependencyGraph) (univ : List String) :
    ∀ queue visited, ∀ x ∈ bfsClosure g univ queue visited,
      x ∈ visited ∨ ∃ q ∈ queue, Reaches g q x := by
  intro queue visited
  induction queue, visited using bfsClosure.induct g univ with
  | case1 visited =>
    rw [bfsClosure]
    exact fun x hx => Or.inl hx
  | case2 q queue visited h ih =>
    rw [bfsClosure, if_pos h]
    intro x hx
    rcases ih x hx with h1 | ⟨r, hr, hrx⟩
    · exact Or.inl h1
    · exact Or.inr ⟨r, List.mem_cons_of_mem q hr, hrx⟩
  | case3 q queue visited h ih =>
    rw [bfsClosure, if_neg h]
    intro x hx
    rcases ih x hx with h1 | ⟨r, hr, hrx⟩
    · rcases List.mem_cons.mp h1 with h2 | h2
      · exact Or.inr ⟨q, List.mem_cons_self q queue, by rw [h2]; exact Reaches.refl q⟩
      · exact Or.inl h2
    · rcases List.mem_append.mp hr with h2 | h2
      · exact Or.inr ⟨r, List.mem_cons_of_mem q h2, hrx⟩
      · exact Or.inr ⟨q, List.mem_cons_self q queue, Reaches.head g q r x h2 hrx⟩

lemma bfsClosure_complete (g : DependencyGraph) (univ : List String)
    (hUnivDeps : ∀ a : String, ∀ b ∈ depsOf g a, b ∈ univ) :
    ∀ queue visited,
      (∀ x ∈ queue, x ∈ univ) →
      (∀ a ∈ visited, ∀ b ∈ depsOf g a, b ∈ visited ∨ b ∈ queue) →
      (∀ x ∈ queue, x ∈ bfsClosure g univ queue visited) ∧
      (∀ a ∈ bfsClosure g univ queue visited, ∀ b ∈ depsOf g a,
          b ∈ bfsClosure g univ queue visited) := by
  intro queue visited
  induction queue, visited using bfsClosure.induct g univ with
  | case1 visited =>
    intro _ hcl
    rw [bfsClosure]
    refine ⟨fun x hx => absurd hx (List.not_mem_nil x), fun a ha b hb => ?_⟩
    rcases hcl a ha b hb with h1 | h1
    · exact h1
    · exact absurd h1 (List.not_mem_nil b)
  | case2 q queue visited h ih =>
    intro hq hcl
    rw [bfsClosure, if_pos h]
    have hqvis : q ∈ visited := by
      rcases h with h1 | h1
      · exact h1
      · exact absurd (hq q (List.mem_cons_self q queue)) h1
    have hq' : ∀ x ∈ queue, x ∈ univ := fun x hx => hq x (List.mem_cons_of_mem q hx)
    have hcl' : ∀ a ∈ visited, ∀ b ∈ depsOf g a, b ∈ visited ∨ b ∈ queue := by
      intro a ha b hb
      rcases hcl a ha b hb with h1 | h1
      · exact Or.inl h1
      · rcases List.mem_cons.mp h1 with h2 | h2
        · exact Or.inl (by rw [h2]; exact hqvis)
        · exact Or.inr h2
    obtain ⟨hqin, hclosed⟩ := ih hq' hcl'
    refine ⟨?_, hclosed⟩
    intro x hx
    rcases List.mem_cons.mp hx with h1 | h1
    · rw [h1]
      exact bfsClosure_subset g univ queue visited hqvis
    · exact hqin x h1
  | case3 q queue visited h ih =>
    intro hq hcl
    rw [bfsClosure, if_neg h]
    push_neg at h
    have hq' : ∀ x ∈ queue ++ depsOf g q, x ∈ univ := by
      intro x hx
      rcases List.mem_append.mp hx with h1 | h1
      · exact hq x (List.mem_cons_of_mem q h1)
      · exact hUnivDeps q x h1
    have hcl' : ∀ a ∈ q :: visited, ∀ b ∈ depsOf g a,
        b ∈ q :: visited ∨ b ∈ queue ++ depsOf g q := by
      intro a ha b hb
      rcases List.mem_cons.mp ha with h1 | h1
      · rw [h1] at hb
        exact Or.inr (List.mem_append_right queue hb)
      · rcases hcl a h1 b hb with h2 | h2
        · exact Or.inl (List.mem_cons_of_mem q h2)
        · rcases List.mem_cons.mp h2 with h3 | h3
          · exact Or.inl (by rw [h3]; exact List.mem_cons_self q visited)
          · exact Or.inr (List.mem_append_left _ h3)
    obtain ⟨hqin, hclosed⟩ := ih hq' hcl'
    refine ⟨?_, hclosed⟩
    intro x hx
    rcases List.mem_cons.mp hx with h1 | h1
    · rw [h1]
      exact bfsClosure_subset g univ (queue ++ depsOf g q) (q :: visited)
        (List.mem_cons_self q visited)
    · exact hqin x (List.mem_append_left _ h1)

lemma depsOf_subset_graphNames (g : DependencyGraph) (target : String) :
    ∀ a : String, ∀ b ∈ depsOf g a, b ∈ graphNames g target := by
  intro a b hb
  unfold graphNames
  apply List.mem_cons_of_mem
  unfold depsOf at hb
  rcases hf : List.find? (fun p => p.1 == a) g with _ | pr
  · rw [hf] at hb
    cases hb
  · rw [hf] at hb
    simp only [Option.map_some', Option.getD_some] at hb
    exact List.mem_flatMap.mpr ⟨pr, List.mem_of_find?_eq_some hf, hb⟩

/-- C1: for every dependency graph (cycles and self-references included),
starting name, registry and installed set, the closure computed by
resolution is duplicate-free and contains exactly the names reachable from
the target along required-dependency edges (the target itself included),
and every artifact selected for download is drawn from that closure. -/
theorem resolve_closure_correct (g : DependencyGraph) (target : String)
    (reg : RemoteModRegistry) (installed : List String) :
    (resolveClosure g target).Nodup ∧
    (∀ x, x ∈ resolveClosure g target ↔ Reaches g target x) ∧
    (∀ p ∈ check_dependencies g reg installed target, p.1 ∈ resolveClosure g target) := by
  have hUnivDeps := depsOf_subset_graphNames g target
  have htarget : target ∈ graphNames g target := List.mem_cons_self _ _
  obtain ⟨hqin, hclosed⟩ :=
    bfsClosure_complete g (graphNames g target) hUnivDeps [target] []
      (by
        intro x hx
        rcases List.mem_cons.mp hx with h | h
        · rw [h]; exact htarget
        · cases h)
      (fun a ha => absurd ha (List.not_mem_nil a))
  refine ⟨bfsClosure_nodup g (graphNames g target) [target] [] List.nodup_nil, ?_, ?_⟩
  · intro x
    constructor
    · intro hx
      rcases bfsClosure_sound g (graphNames g target) [target] [] x hx with h | ⟨q, hq, hqx⟩
      · cases h
      · rcases List.mem_cons.mp hq with h1 | h1
        · rw [h1] at hqx
          exact hqx
        · cases h1
    · intro hx
      induction hx with
      | refl => exact hqin target (List.mem_cons_self target [])
      | tail hab hbc ih => exact hclosed _ ih _ hbc
  · intro p hp
    unfold check_dependencies at hp
    obtain ⟨n, hn, hmap⟩ := List.mem_filterMap.mp hp
    have h1 := (List.mem_filter.mp hn).1
    have h2 := (List.mem_filter.mp h1).1
    rcases hlookup : getModInfoByName reg n with _ | info
    · rw [hlookup] at hmap
      exact Option.noConfusion hmap
    · rw [hlookup] at hmap
      simp only [Option.map_some'] at hmap
      have hpe := Option.some.inj hmap
      rw [← hpe]
      exact h2

end EverestModCli
